import Mathlib

/-!
Verification development for the Docker image validation tool
(`docker_validator.py`).  Python strings are embedded as `List Char`;
the network (HTTP session) is embedded as an explicit oracle structure
so that the control flow of the validator becomes a total function.
-/

namespace DockerValidator

/-- Python `s.rsplit(c, 1)` restricted to the case used by the source:
splits `s` at the last occurrence of `c`, returning the part before and
the part after.  When `c` does not occur, returns `(s, [])` (the source
only calls this under an `if c in s` guard). -/
def rsplit1 (c : Char) : List Char → List Char × List Char
  | [] => ([], [])
  | x :: xs =>
    if c ∈ xs then
      let p := rsplit1 c xs
      (x :: p.1, p.2)
    else if x = c then ([], xs)
    else (x :: xs, [])

/-- Embedding of `DockerImageValidator.parse_image_name`: parse a Docker image
reference into `(registry, repository, tag)`.  Faithful to the source:
tag is split off at the last `:` when present (`rsplit(':', 1)`), then
the first `/`-segment is treated as a registry host exactly when it
contains a `.` or a `:` (`'/'.join` of the remaining segments is the
repository); a bare single-segment name is prefixed with `library/`.
Python `split('/')` is `List.splitOn '/'` and `'/'.join` is
`List.intercalate ['/']`. -/
def parse_image_name (image : List Char) : List Char × List Char × List Char :=
  let registry := "docker.io".toList
  let tag := "latest".toList
  let st := if ':' ∈ image then rsplit1 ':' image else (image, tag)
  let image' := st.1
  let tag' := st.2
  if '/' ∈ image' then
    let parts := image'.splitOn '/'
    if '.' ∈ parts.headI ∨ ':' ∈ parts.headI then
      (parts.headI, List.intercalate ['/'] parts.tail, tag')
    else
      (registry, image', tag')
  else
    (registry, "library/".toList ++ image', tag')

/-! ## Network oracle

Each HTTP call the validator makes is a field of `Network`.  A call
either raises (exception / timeout, constructor `exn`) or returns a
status code together with the parsed response body; a body whose JSON
parse would raise is folded into `exn`, since the surrounding `try`
catches both identically. -/

/-- Outcome of one HTTP call: an exception (incl. timeout), or a
status code with a parsed body. -/
inductive NetOutcome (α : Type) where
  | exn (msg : List Char)
  | resp (status : Nat) (body : α)

/-- Body of the Docker Hub repository endpoint
(`hub.docker.com/v2/repositories/{name}/`): the four fields the
validator reads, each possibly absent. -/
structure RepoData where
  description : Option (List Char)
  star_count : Option Int
  pull_count : Option Int
  last_updated : Option (List Char)

/-- One element of the `results` array of the Docker Hub tags endpoint;
its `name` key may be absent (in which case `result['name']` raises). -/
structure TagEntry where
  name : Option (List Char)

/-- Body of the Docker Hub tags endpoint
(`hub.docker.com/v2/repositories/{name}/tags/`): the `results` key,
possibly absent (`data.get('results', [])`). -/
structure TagsData where
  results : Option (List TagEntry)

/-- The network, one field per endpoint the validator contacts. -/
structure Network where
/-- call `GET auth.docker.io/token` with scope `repository:{repository}:pull`;
  the body is `token_data.get('token')`. -/
  authToken : (repository : List Char) → NetOutcome (Option (List Char))
/-- call `HEAD registry-1.docker.io/v2/{repository}/manifests/{tag}` with a
  bearer token. -/
  manifestHead : (token repository tag : List Char) →
    NetOutcome Unit
/-- call `GET hub.docker.com/v2/repositories/{repoName}/tags/{tag}/`. -/
  hubTagCheck : (repoName tag : List Char) → NetOutcome Unit
/-- call `GET hub.docker.com/v2/repositories/{repoName}/`. -/
  hubRepo : (repoName : List Char) → NetOutcome RepoData
/-- call `GET hub.docker.com/v2/repositories/{repoName}/tags/`. -/
  hubTags : (repoName : List Char) → NetOutcome TagsData
/-- call `HEAD https://{registry}/v2/{repository}/manifests/{tag}` for a
  non-default registry. -/
  manifestHeadOther : (registry repository tag : List Char) → NetOutcome Unit

/-- Python `s.replace('library/', '')`: scanning left to right, remove
every non-overlapping occurrence of `library/` and continue after it. -/
def removeLibrary : List Char → List Char
  | 'l' :: 'i' :: 'b' :: 'r' :: 'a' :: 'r' :: 'y' :: '/' :: rest =>
    removeLibrary rest
  | x :: xs => x :: removeLibrary xs
  | [] => []

/-- The `repo_name` computation that appears three times in the source:
`repository.replace('library/', '')` if `repository.startswith('library/')`
else `repository`. -/
def repo_name (repository : List Char) : List Char :=
  if "library/".toList.isPrefixOf repository then removeLibrary repository
  else repository

/-- Embedding of `DockerImageValidator.check_image_exists`.  For `docker.io`: request
an auth token; on HTTP 200 with a truthy token, `HEAD` the manifest and
report whether the status is 200; otherwise fall back to the Docker Hub
tag endpoint.  For any other registry: direct manifest `HEAD`.  Any
exception yields `false`. -/
def check_image_exists (net : Network) (registry repository tag : List Char) :
    Bool :=
  if registry = "docker.io".toList then
    let hub : Bool :=
      match net.hubTagCheck (repo_name repository) tag with
      | .exn _ => false
      | .resp st _ => st = 200
    match net.authToken repository with
    | .exn _ => false
    | .resp st body =>
      match (if st = 200 then body else none) with
      | some token =>
        if token ≠ [] then
          match net.manifestHead token repository tag with
          | .exn _ => false
          | .resp st2 _ => st2 = 200
        else hub
      | none => hub
  else
    match net.manifestHeadOther registry repository tag with
    | .exn _ => false
    | .resp st _ => st = 200

/-- Values stored in the metadata mapping (strings or counters). -/
inductive MetaVal where
  | s (v : List Char)
  | n (v : Int)
deriving DecidableEq

/-- Embedding of `DockerImageValidator.get_image_metadata`: for `docker.io`, fetch the
Docker Hub repository document and extract four fields (with defaults);
any exception or non-200 status, or a non-default registry, yields the
empty mapping. -/
def get_image_metadata (net : Network) (registry repository : List Char)
    (tag : List Char) : List (List Char × MetaVal) :=
  if registry = "docker.io".toList then
    match net.hubRepo (repo_name repository) with
    | .exn _ => []
    | .resp st body =>
      if st = 200 then
        [("description".toList, .s (body.description.getD [])),
         ("star_count".toList, .n (body.star_count.getD 0)),
         ("pull_count".toList, .n (body.pull_count.getD 0)),
         ("last_updated".toList, .s (body.last_updated.getD []))]
      else []
  else []

/-- The list comprehension `[result['name'] for result in results[:10]]`:
`none` when some entry lacks the `name` key (a `KeyError` is raised and
the enclosing `tags` keeps its prior value `[]`). -/
def extractNames : List TagEntry → Option (List (List Char))
  | [] => some []
  | e :: rest =>
    match e.name with
    | none => none
    | some n => (extractNames rest).map (fun l => n :: l)

/-- Embedding of `DockerImageValidator.get_available_tags`: for `docker.io`, fetch the
Docker Hub tag listing and take the names of the first 10 results; any
exception, non-200 status, or non-default registry yields `[]`. -/
def get_available_tags (net : Network) (registry repository : List Char) :
    List (List Char) :=
  if registry = "docker.io".toList then
    match net.hubTags (repo_name repository) with
    | .exn _ => []
    | .resp st body =>
      if st = 200 then
        match extractNames ((body.results.getD []).take 10) with
        | some names => names
        | none => []
      else []
  else []

/-- The per-image result dictionary built by `validate_single_image`.
`registry`, `repository` and `tag` start absent / `None` and are filled
in after parsing (parsing never raises, so in every reachable result
they are present). -/
structure ValidationResult where
  image : List Char
  «exists» : Bool
  registry : Option (List Char)
  repository : Option (List Char)
  tag : Option (List Char)
  tags : List (List Char)
  metadata : List (List Char × MetaVal)
  errors : List (List Char)

instance : Inhabited ValidationResult :=
  ⟨{ image := [], «exists» := false, registry := none, repository := none,
     tag := none, tags := [], metadata := [], errors := [] }⟩

/-- The error string `f"Image {image} not found in registry {registry}"`. -/
def notFoundMsg (image registry : List Char) : List Char :=
  "Image ".toList ++ image ++ " not found in registry ".toList ++ registry

/-- Embedding of `DockerImageValidator.validate_single_image`: parse, check
existence, and on success enrich with metadata and tags; on failure
record a not-found error.  The three network helpers catch their own
exceptions, and parsing is total, so the outer `except` is never
reached and the function is total. -/
def validate_single_image (net : Network) (image : List Char) :
    ValidationResult :=
  let p := parse_image_name image
  let registry := p.1
  let repository := p.2.1
  let tag := p.2.2
  if check_image_exists net registry repository tag then
    { image := image
      «exists» := true
      registry := some registry
      repository := some repository
      tag := some tag
      metadata := get_image_metadata net registry repository tag
      tags := get_available_tags net registry repository
      errors := [] }
  else
    { image := image
      «exists» := false
      registry := some registry
      repository := some repository
      tag := some tag
      metadata := []
      tags := []
      errors := [notFoundMsg image registry] }

/-- Python `dict[k] = v` on an insertion-ordered association list: an
existing key keeps its position and gets the new value; a new key is
appended at the end. -/
def dictInsert (k : List Char) (v : ValidationResult) :
    List (List Char × ValidationResult) → List (List Char × ValidationResult)
  | [] => [(k, v)]
  | (k₀, v₀) :: rest =>
    if k₀ = k then (k, v) :: rest else (k₀, v₀) :: dictInsert k v rest

/-- The batch dictionary returned by `validate_image_list` (the
`timestamp` field is wall-clock time, outside the embedding). -/
structure BatchResult where
  total_images : Nat
  results : List (List Char × ValidationResult)

/-- Embedding of `DockerImageValidator.validate_image_list`: sequentially validate
each image, storing the per-image result in a dict keyed by the image
string. -/
def validate_image_list (net : Network) (images : List (List Char)) :
    BatchResult :=
  { total_images := images.length
    results := images.foldl
      (fun acc image => dictInsert image (validate_single_image net image) acc)
      [] }

/-- CLI arguments after successful `argparse` parsing. -/
structure Args where
  command : List Char
  images : List (List Char)
  output : Option (List Char)
  verbose : Bool

/-- What `main` does after argument parsing: exit with a status and an
error message, or run the batch validation. -/
inductive MainOutcome where
  | exited (code : Nat) (msg : List Char)
  | ran (batch : BatchResult)

/-- The error message printed for an unknown command token. -/
def unknownCommandMsg (command : List Char) : List Char :=
  "Error: Unknown command ".toList ++ [Char.ofNat 39] ++ command ++
    [Char.ofNat 39] ++ ". Expected ".toList ++ [Char.ofNat 39] ++
    "!docker-image-validation".toList ++ [Char.ofNat 39]

/-- Embedding of `main` after `argparse`: reject any first positional token other
than the sentinel with exit status 1, otherwise run the batch. -/
def main (net : Network) (args : Args) : MainOutcome :=
  if args.command ≠ "!docker-image-validation".toList then
    .exited 1 (unknownCommandMsg args.command)
  else
    .ran (validate_image_list net args.images)

/-- Every call of the network raises (e.g. the host is unreachable or
every request times out). -/
def AllCallsFail (net : Network) : Prop :=
  (∀ r, ∃ m, net.authToken r = .exn m) ∧
  (∀ tk r t, ∃ m, net.manifestHead tk r t = .exn m) ∧
  (∀ r t, ∃ m, net.hubTagCheck r t = .exn m) ∧
  (∀ r, ∃ m, net.hubRepo r = .exn m) ∧
  (∀ r, ∃ m, net.hubTags r = .exn m) ∧
  (∀ g r t, ∃ m, net.manifestHeadOther g r t = .exn m)

/-- A concrete network on which every call raises a timeout. -/
def failNet : Network where
  authToken := fun _ => .exn "timeout".toList
  manifestHead := fun _ _ _ => .exn "timeout".toList
  hubTagCheck := fun _ _ => .exn "timeout".toList
  hubRepo := fun _ => .exn "timeout".toList
  hubTags := fun _ => .exn "timeout".toList
  manifestHeadOther := fun _ _ _ => .exn "timeout".toList

/-- A concrete network on which the auth and manifest calls succeed (so
images exist) but the Docker Hub metadata call raises and the tag
listing call returns HTTP 500. -/
def degradedNet : Network where
  authToken := fun _ => .resp 200 (some "tok".toList)
  manifestHead := fun _ _ _ => .resp 200 ()
  hubTagCheck := fun _ _ => .resp 200 ()
  hubRepo := fun _ => .exn "connection reset".toList
  hubTags := fun _ => .resp 500 { results := none }
  manifestHeadOther := fun _ _ _ => .resp 200 ()

/-- The Docker Hub repository call (`get_image_metadata`'s only request)
fails for this repository: it raises, or returns a non-200 status. -/
def hubRepoFails (net : Network) (repository : List Char) : Prop :=
  ∀ st body, net.hubRepo (repo_name repository) = .resp st body → st ≠ 200

/-- The Docker Hub tag-listing call (`get_available_tags`'s only
request) fails for this repository: it raises, or returns a non-200
status. -/
def hubTagsFails (net : Network) (repository : List Char) : Prop :=
  ∀ st body, net.hubTags (repo_name repository) = .resp st body → st ≠ 200

/-! ## Lemmas about the reference parser -/

theorem rsplit1_append (c : Char) (a b : List Char) (hb : c ∉ b) :
    rsplit1 c (a ++ c :: b) = (a, b) := by
  induction a with
  | nil => simp [rsplit1, hb]
  | cons x a ih =>
    have hmem : c ∈ a ++ c :: b := by simp
    simp [rsplit1, hmem, ih]

theorem rsplit1_not_mem_snd (c : Char) (s : List Char) :
    c ∉ (rsplit1 c s).2 := by
  induction s with
  | nil => simp [rsplit1]
  | cons x xs ih =>
    by_cases h : c ∈ xs
    · simpa [rsplit1, h] using ih
    · by_cases hx : x = c <;> simp [rsplit1, h, hx]

theorem not_mem_headI_splitOn (c : Char) (s : List Char) :
    c ∉ (s.splitOn c).headI := by
  induction s with
  | nil => simp
  | cons x xs ih =>
    by_cases hx : x = c
    · subst hx
      simp [List.splitOn, List.splitOnP_cons]
    · have hne := List.splitOnP_ne_nil (· == c) xs
      simp only [List.splitOn] at ih ⊢
      rw [List.splitOnP_cons]
      simp only [beq_iff_eq, hx, if_false]
      cases hl : xs.splitOnP (· == c) with
      | nil => exact absurd hl hne
      | cons h₀ t =>
        rw [hl] at ih
        simp only [List.modifyHead, List.headI] at ih ⊢
        intro hc
        rcases List.mem_cons.mp hc with rfl | hc
        · exact hx rfl
        · exact ih hc

theorem splitOn_append (c : Char) (a b : List Char) (ha : c ∉ a) :
    (a ++ c :: b).splitOn c = a :: b.splitOn c := by
  simp only [List.splitOn]
  refine List.splitOnP_first _ a ?_ c (by simp) b
  intro x hx
  simp only [beq_iff_eq]
  intro hxc
  exact ha (hxc ▸ hx)

/-- Structural facts about every parse result: the tag never contains a
colon, and the registry never contains a slash but always contains a
dot or a colon. -/
theorem parse_image_name_spec (s : List Char) :
    ':' ∉ (parse_image_name s).2.2 ∧
    '/' ∉ (parse_image_name s).1 ∧
    ('.' ∈ (parse_image_name s).1 ∨ ':' ∈ (parse_image_name s).1) := by
  have hdio1 : '/' ∉ "docker.io".toList := by decide
  have hdio2 : '.' ∈ "docker.io".toList := by decide
  have hlat : ':' ∉ "latest".toList := by decide
  by_cases hc : ':' ∈ s <;> simp only [parse_image_name, hc, if_true, if_false, ite_true, ite_false]
  · by_cases hs : '/' ∈ (rsplit1 ':' s).1
    · simp only [hs, ite_true]
      by_cases hreg : '.' ∈ ((rsplit1 ':' s).1.splitOn '/').headI ∨
          ':' ∈ ((rsplit1 ':' s).1.splitOn '/').headI
      · simp only [hreg, ite_true]
        exact ⟨rsplit1_not_mem_snd ':' s, not_mem_headI_splitOn '/' (rsplit1 ':' s).1, trivial⟩
      · simp only [hreg, ite_false]
        exact ⟨rsplit1_not_mem_snd ':' s, hdio1, Or.inl hdio2⟩
    · simp only [hs, ite_false]
      exact ⟨rsplit1_not_mem_snd ':' s, hdio1, Or.inl hdio2⟩
  · by_cases hs : '/' ∈ s
    · simp only [hs, ite_true]
      by_cases hreg : '.' ∈ (s.splitOn '/').headI ∨ ':' ∈ (s.splitOn '/').headI
      · simp only [hreg, ite_true]
        exact ⟨hlat, not_mem_headI_splitOn '/' s, trivial⟩
      · simp only [hreg, ite_false]
        exact ⟨hlat, hdio1, Or.inl hdio2⟩
    · simp only [hs, ite_false]
      exact ⟨hlat, hdio1, Or.inl hdio2⟩

/-- Parsing the canonical reconstruction `registry/repository:tag` of a
triple whose registry has no slash but a dot or colon, and whose tag has
no colon, recovers the triple. -/
theorem parse_reconstruction (r p t : List Char) (hr1 : '/' ∉ r)
    (hr2 : '.' ∈ r ∨ ':' ∈ r) (ht : ':' ∉ t) :
    parse_image_name (r ++ '/' :: p ++ ':' :: t) = (r, p, t) := by
  have hassoc : r ++ '/' :: p ++ ':' :: t = (r ++ '/' :: p) ++ ':' :: t := by
    simp
  rw [hassoc]
  have hc : ':' ∈ (r ++ '/' :: p) ++ ':' :: t := by simp
  have hsplit := rsplit1_append ':' (r ++ '/' :: p) t ht
  simp only [parse_image_name, hc, ite_true, hsplit]
  have hsl : '/' ∈ r ++ '/' :: p := by simp
  simp only [hsl, ite_true]
  rw [splitOn_append '/' r p hr1]
  simp only [List.headI, List.tail]
  simp only [hr2, ite_true]
  rw [List.intercalate_splitOn]

/-! ## Claims about the reference parser -/

/-- Claim C2: `parse_image_name` maps `nginx:latest` to
(`docker.io`, `library/nginx`, `latest`), `myorg/myapp` to
(`docker.io`, `myorg/myapp`, `latest`), and
`myregistry.example.com:5000/team/app:v2` to
(`myregistry.example.com:5000`, `team/app`, `v2`). -/
theorem claim_C2_parse_examples :
    parse_image_name "nginx:latest".toList =
      ("docker.io".toList, "library/nginx".toList, "latest".toList) ∧
    parse_image_name "myorg/myapp".toList =
      ("docker.io".toList, "myorg/myapp".toList, "latest".toList) ∧
    parse_image_name "myregistry.example.com:5000/team/app:v2".toList =
      ("myregistry.example.com:5000".toList, "team/app".toList, "v2".toList) :=
  ⟨by decide, by decide, by decide⟩

/-- Claim C3: parsing is idempotent.  For every input string, parsing
the canonical reconstruction `registry/repository:tag` of the parsed
triple yields the same triple. -/
theorem claim_C3_parse_idempotent (s : List Char) :
    parse_image_name
      ((parse_image_name s).1 ++ '/' ::
        (parse_image_name s).2.1 ++ ':' :: (parse_image_name s).2.2) =
      parse_image_name s := by
  obtain ⟨ht, hr1, hr2⟩ := parse_image_name_spec s
  rw [parse_reconstruction _ _ _ hr1 hr2 ht]

/-- Claim C10: an input `host:port/path` whose only colon separates the
host from the port, and which carries no tag, is misparsed: the tag is
split off at that colon, so the registry defaults to `docker.io`, the
repository becomes `library/` followed by the host, and the tag becomes
`port/path`. -/
theorem claim_C10_port_misparse (host rest : List Char)
    (h1 : ':' ∉ host) (h2 : ':' ∉ rest) (h3 : '/' ∉ host) :
    parse_image_name (host ++ ':' :: rest) =
      ("docker.io".toList, "library/".toList ++ host, rest) := by
  have hc : ':' ∈ host ++ ':' :: rest := by simp
  have hr := rsplit1_append ':' host rest h2
  simp [parse_image_name, hc, hr, h3]

/-- Witness for C10 at the concrete input of the claim. -/
theorem claim_C10_witness :
    parse_image_name "myregistry.example.com:5000/team/app".toList =
      ("docker.io".toList, "library/myregistry.example.com".toList,
        "5000/team/app".toList) := by
  have h := claim_C10_port_misparse "myregistry.example.com".toList
    "5000/team/app".toList (by decide) (by decide) (by decide)
  simpa using h

/-! ## Lemmas about the batch dictionary -/

theorem mem_keys_dictInsert (k a : List Char) (v : ValidationResult)
    (d : List (List Char × ValidationResult)) :
    a ∈ (dictInsert k v d).map Prod.fst ↔ a ∈ d.map Prod.fst ∨ a = k := by
  induction d with
  | nil => simp [dictInsert]
  | cons kv rest ih =>
    obtain ⟨k₀, v₀⟩ := kv
    by_cases h : k₀ = k
    · subst h
      simp [dictInsert]
      tauto
    · simp [dictInsert, h, ih]
      tauto

theorem length_dictInsert_not_mem (k : List Char) (v : ValidationResult)
    (d : List (List Char × ValidationResult)) (h : k ∉ d.map Prod.fst) :
    (dictInsert k v d).length = d.length + 1 := by
  induction d with
  | nil => simp [dictInsert]
  | cons kv rest ih =>
    obtain ⟨k₀, v₀⟩ := kv
    have hk : ¬ k₀ = k := by
      intro e
      exact h (by simp [e])
    have h' : k ∉ rest.map Prod.fst := fun hm => h (by simp [hm])
    simp [dictInsert, hk, ih h']

theorem length_foldl_dictInsert (net : Network) (images : List (List Char))
    (acc : List (List Char × ValidationResult)) (hnd : images.Nodup)
    (hdisj : ∀ i ∈ images, i ∉ acc.map Prod.fst) :
    (images.foldl
      (fun a image => dictInsert image (validate_single_image net image) a)
      acc).length = acc.length + images.length := by
  induction images generalizing acc with
  | nil => simp
  | cons im rest ih =>
    obtain ⟨him, hrest⟩ := List.nodup_cons.mp hnd
    have h1 : im ∉ acc.map Prod.fst := hdisj im (by simp)
    have hdisj' : ∀ i ∈ rest,
        i ∉ (dictInsert im (validate_single_image net im) acc).map Prod.fst := by
      intro i hi
      rw [mem_keys_dictInsert]
      push_neg
      refine ⟨hdisj i (by simp [hi]), ?_⟩
      intro e
      exact him (e ▸ hi)
    simp only [List.foldl_cons]
    rw [ih _ hrest hdisj',
      length_dictInsert_not_mem im (validate_single_image net im) acc h1]
    simp only [List.length_cons]
    omega

/-- Claim C1 (amended): `total_images` equals the length of the input
list for every batch, duplicates included; and when the input images
are pairwise distinct the `results` dictionary has exactly that many
entries.  (The unamended claim fails for lists with duplicate image
strings, since `results` is keyed by the image string: see the
counterexample.) -/
theorem claim_C1_batch_counts (net : Network) (images : List (List Char)) :
    (validate_image_list net images).total_images = images.length ∧
    (images.Nodup →
      (validate_image_list net images).results.length = images.length) := by
  refine ⟨rfl, fun h => ?_⟩
  have hlen := length_foldl_dictInsert net images [] h (by simp)
  simpa [validate_image_list] using hlen

/-- Counterexample to claim C1 as stated: a batch of the two image
strings `nginx`, `nginx` has `total_images = 2` but only one entry in
`results`. -/
theorem claim_C1_counterexample :
    (validate_image_list failNet ["nginx".toList, "nginx".toList]).total_images
        = 2 ∧
    (validate_image_list failNet ["nginx".toList, "nginx".toList]).results.length
        = 1 :=
  ⟨rfl, rfl⟩

/-- Witness for the amended claim C1 on a concrete duplicate-free batch. -/
theorem claim_C1_witness :
    (validate_image_list failNet
        ["nginx".toList, "ubuntu:20.04".toList]).total_images = 2 ∧
    (validate_image_list failNet
        ["nginx".toList, "ubuntu:20.04".toList]).results.length = 2 :=
  ⟨(claim_C1_batch_counts failNet
      ["nginx".toList, "ubuntu:20.04".toList]).1,
    (claim_C1_batch_counts failNet
      ["nginx".toList, "ubuntu:20.04".toList]).2 (by decide)⟩

/-! ## Claims about the existence check and enrichment -/

theorem check_image_exists_false_of_allFail (net : Network)
    (h : AllCallsFail net) (registry repository tag : List Char) :
    check_image_exists net registry repository tag = false := by
  obtain ⟨hauth, hman, hhtc, hhr, hht, hother⟩ := h
  by_cases hreg : registry = "docker.io".toList
  · obtain ⟨m, hm⟩ := hauth repository
    simp only [check_image_exists]
    rw [if_pos hreg, hm]
  · obtain ⟨m, hm⟩ := hother registry repository tag
    simp only [check_image_exists]
    rw [if_neg hreg, hm]

/-- Claim C4: when every network call fails (raises or times out), a
single-image validation reports `exists = false` with a non-empty error
list, and the enclosing batch call still completes, recording that
result (in this total embedding, no exception can propagate at all). -/
theorem claim_C4_all_calls_fail (net : Network) (image : List Char)
    (h : AllCallsFail net) :
    (validate_single_image net image).«exists» = false ∧
    (validate_single_image net image).errors ≠ [] ∧
    (validate_image_list net [image]).results =
      [(image, validate_single_image net image)] := by
  have hfalse := check_image_exists_false_of_allFail net h
    (parse_image_name image).1 (parse_image_name image).2.1
    (parse_image_name image).2.2
  refine ⟨?_, ?_, ?_⟩
  · simp [validate_single_image, hfalse]
  · simp [validate_single_image, hfalse]
  · simp [validate_image_list, dictInsert]

/-- Witness for C4: on the concrete all-timeout network, validating
`nginx:latest` fails closed. -/
theorem claim_C4_witness :
    (validate_single_image failNet "nginx:latest".toList).«exists» = false ∧
    (validate_single_image failNet "nginx:latest".toList).errors ≠ [] ∧
    (validate_image_list failNet ["nginx:latest".toList]).results =
      [("nginx:latest".toList, validate_single_image failNet "nginx:latest".toList)] :=
  claim_C4_all_calls_fail failNet "nginx:latest".toList
    ⟨fun _ => ⟨_, rfl⟩, fun _ _ _ => ⟨_, rfl⟩, fun _ _ => ⟨_, rfl⟩,
      fun _ => ⟨_, rfl⟩, fun _ => ⟨_, rfl⟩, fun _ _ _ => ⟨_, rfl⟩⟩

theorem extractNames_length (l : List TagEntry) (ns : List (List Char))
    (h : extractNames l = some ns) : ns.length = l.length := by
  induction l generalizing ns with
  | nil =>
    simp only [extractNames, Option.some.injEq] at h
    subst h
    rfl
  | cons e rest ih =>
    simp only [extractNames] at h
    cases he : e.name with
    | none => rw [he] at h; exact absurd h (by simp)
    | some n =>
      rw [he] at h
      cases hr : extractNames rest with
      | none => rw [hr] at h; exact absurd h (by simp)
      | some ns₀ =>
        rw [hr] at h
        simp at h
        subst h
        simp [ih ns₀ hr]

/-- Claim C5: the tag list returned by `get_available_tags` never has
more than 10 entries, whatever the registry, repository, and network
responses. -/
theorem claim_C5_tags_at_most_ten (net : Network)
    (registry repository : List Char) :
    (get_available_tags net registry repository).length ≤ 10 := by
  by_cases hreg : registry = "docker.io".toList
  · simp only [get_available_tags, hreg, ite_true]
    cases hcall : net.hubTags (repo_name repository) with
    | exn m => simp
    | resp st body =>
      by_cases hst : st = 200
      · simp only [hst, ite_true]
        cases hE : extractNames ((body.results.getD []).take 10) with
        | none => simp
        | some names =>
          have h1 := extractNames_length _ _ hE
          have h2 : ((body.results.getD []).take 10).length ≤ 10 := by
            rw [List.length_take]
            exact min_le_left _ _
          simpa [h1] using h2
      · simp [hst]
  · simp only [get_available_tags]
    rw [if_neg hreg]
    simp

/-- Claim C6: `main` exits with status 1 and an error message whenever
the first positional token differs from the sentinel
`!docker-image-validation`, performing no validation; with the sentinel
it runs the batch validation. -/
theorem claim_C6_cli_sentinel (net : Network) (args : Args) :
    (args.command ≠ "!docker-image-validation".toList →
      main net args = .exited 1 (unknownCommandMsg args.command)) ∧
    (args.command = "!docker-image-validation".toList →
      main net args = .ran (validate_image_list net args.images)) := by
  constructor
  · intro h
    simp only [main]
    rw [if_pos h]
  · intro h
    simp only [main]
    rw [if_neg (not_not_intro h)]

/-- Witness for C6 on a wrong command token and on the sentinel. -/
theorem claim_C6_witness :
    main failNet ⟨"status".toList, ["nginx".toList], none, false⟩ =
      .exited 1 (unknownCommandMsg "status".toList) ∧
    main failNet
        ⟨"!docker-image-validation".toList, ["nginx".toList], none, false⟩ =
      .ran (validate_image_list failNet ["nginx".toList]) :=
  ⟨(claim_C6_cli_sentinel failNet _).1 (by decide),
    (claim_C6_cli_sentinel failNet _).2 rfl⟩

/-- Claim C7: metadata and tag enrichment are only implemented for the
default public registry; any other registry yields an empty metadata
mapping and an empty tag list. -/
theorem claim_C7_default_registry_only (net : Network)
    (registry repository tag : List Char)
    (h : registry ≠ "docker.io".toList) :
    get_image_metadata net registry repository tag = [] ∧
    get_available_tags net registry repository = [] := by
  constructor
  · simp only [get_image_metadata]
    rw [if_neg h]
  · simp only [get_available_tags]
    rw [if_neg h]

/-- Witness for C7 at a concrete non-default registry. -/
theorem claim_C7_witness :
    get_image_metadata failNet "quay.io".toList "team/app".toList
      "v1".toList = [] ∧
    get_available_tags failNet "quay.io".toList "team/app".toList = [] :=
  claim_C7_default_registry_only failNet "quay.io".toList "team/app".toList
    "v1".toList (by decide)

theorem get_image_metadata_eq_nil_of_fail (net : Network)
    (registry repository tag : List Char) (h : hubRepoFails net repository) :
    get_image_metadata net registry repository tag = [] := by
  by_cases hreg : registry = "docker.io".toList
  · simp only [get_image_metadata, hreg, ite_true]
    cases hcall : net.hubRepo (repo_name repository) with
    | exn m => simp
    | resp st body =>
      have := h st body hcall
      simp [this]
  · simp only [get_image_metadata]
    rw [if_neg hreg]

theorem get_available_tags_eq_nil_of_fail (net : Network)
    (registry repository : List Char) (h : hubTagsFails net repository) :
    get_available_tags net registry repository = [] := by
  by_cases hreg : registry = "docker.io".toList
  · simp only [get_available_tags, hreg, ite_true]
    cases hcall : net.hubTags (repo_name repository) with
    | exn m => simp
    | resp st body =>
      have := h st body hcall
      simp [this]
  · simp only [get_available_tags]
    rw [if_neg hreg]

/-- Claim C8: when an image is found to exist, a failing metadata fetch
degrades to an empty metadata mapping and a failing tag-listing fetch
degrades to an empty tag list, while `exists` stays `true` and the
validation of the image still completes (the embedding is total, so
nothing is raised). -/
theorem claim_C8_enrichment_degrades (net : Network) (image : List Char)
    (hex : check_image_exists net (parse_image_name image).1
      (parse_image_name image).2.1 (parse_image_name image).2.2 = true) :
    (validate_single_image net image).«exists» = true ∧
    (hubRepoFails net (parse_image_name image).2.1 →
      (validate_single_image net image).metadata = []) ∧
    (hubTagsFails net (parse_image_name image).2.1 →
      (validate_single_image net image).tags = []) := by
  refine ⟨?_, ?_, ?_⟩
  · simp [validate_single_image, hex]
  · intro h
    simp only [validate_single_image, hex, ite_true]
    exact get_image_metadata_eq_nil_of_fail net _ _ _ h
  · intro h
    simp only [validate_single_image, hex, ite_true]
    exact get_available_tags_eq_nil_of_fail net _ _ h

/-- Witness for C8: on `degradedNet` the image `nginx` exists, the
metadata call raises and the tag call returns HTTP 500, and the result
degrades exactly as claimed. -/
theorem claim_C8_witness :
    (validate_single_image degradedNet "nginx".toList).«exists» = true ∧
    (validate_single_image degradedNet "nginx".toList).metadata = [] ∧
    (validate_single_image degradedNet "nginx".toList).tags = [] := by
  have h := claim_C8_enrichment_degrades degradedNet "nginx".toList (by decide)
  refine ⟨h.1, h.2.1 ?_, h.2.2 ?_⟩
  · intro st body hcall
    simp [degradedNet] at hcall
  · intro st body hcall
    simp only [degradedNet] at hcall
    obtain ⟨h1, h2⟩ := NetOutcome.resp.inj hcall
    omega

/-- Claim C9: invariant of every result of `validate_single_image`:
`exists = true` exactly when the error list is empty. -/
theorem claim_C9_exists_iff_no_errors (net : Network) (image : List Char) :
    (validate_single_image net image).«exists» = true ↔
    (validate_single_image net image).errors = [] := by
  by_cases h : check_image_exists net (parse_image_name image).1
      (parse_image_name image).2.1 (parse_image_name image).2.2 = true
  · simp [validate_single_image, h]
  · simp [validate_single_image, h]

end DockerValidator
